import Mathlib

/-!
Verification development for the California wildfire-risk data-ingestion
scripts.  The definitions below are shallow embeddings of the Python code in
`src/scripts/`:

* `processLine`, `processLines`, `process_climate_file` embed
  `download_noaa_climate_divisions.py::process_climate_file` (fixed-width
  NOAA climate-division decoder).  Text is modelled as `List Char`; Python's
  `str.strip` is `stripL`; Python's `float(...)` is modelled by `parseFloatQ`,
  an exact-rational parser for the decimal literals appearing in the data
  files (sign, digits, optional fractional part); Python's `int(...)` is
  `parsePyInt`.  Numeric values are modelled exactly in `ℚ` in place of IEEE
  doubles.
* `outerMerge` embeds the pandas outer `merge` on the composite key used in
  `download_noaa_climate_divisions.py::main`, up to row order (the claims
  verified about it concern only row counts and row membership).
* `dtStep`, `yearStep`, `download_weather_data_yearly` embed
  `download_weather_data.py::download_weather_data_yearly`, with the network
  modelled as a function from (year, datatype) to an exception-or-response
  outcome.
* `processCensusRow`, `download_census_data`, `censusRequest` embed
  `download_population_data.py::download_census_data`, with API response rows
  modelled positionally in the documented column order
  (total, male, female, state, county).
-/

/-- Whitespace characters removed by Python's `str.strip`. -/
def isWS (c : Char) : Bool :=
  c == ' ' || c == '\t' || c == '\n' || c == '\r' || c == '\x0b' || c == '\x0c'

/-- Remove trailing whitespace (Python `str.rstrip`). -/
def rstripL (l : List Char) : List Char :=
  (l.reverse.dropWhile isWS).reverse

/-- Remove leading and trailing whitespace (Python `str.strip`). -/
def stripL (l : List Char) : List Char :=
  rstripL (l.dropWhile isWS)

/-- Decimal digit test, as used when parsing numeric fields. -/
def isDigitC (c : Char) : Bool :=
  48 ≤ c.toNat && c.toNat ≤ 57

/-- Numeric value of a digit character. -/
def digitVal (c : Char) : ℕ := c.toNat - 48

/-- Value of a big-endian digit string. -/
def digitsVal (s : List Char) : ℕ :=
  s.foldl (fun a c => 10 * a + digitVal c) 0

/-- Character for a single digit. -/
def digitChar (d : ℕ) : Char :=
  match d with
  | 0 => '0' | 1 => '1' | 2 => '2' | 3 => '3' | 4 => '4'
  | 5 => '5' | 6 => '6' | 7 => '7' | 8 => '8' | 9 => '9'
  | _ => '?'

/-- Big-endian digit string of `n`, with `fuel` bounding the recursion. -/
def natToDigitsAux (fuel n : ℕ) : List Char :=
  match fuel with
  | 0 => []
  | f + 1 => if n = 0 then [] else natToDigitsAux f (n / 10) ++ [digitChar (n % 10)]

/-- Canonical decimal rendering of a natural number. -/
def natRepr (n : ℕ) : List Char :=
  if n = 0 then ['0'] else natToDigitsAux n n

/-- Canonical decimal rendering of an integer. -/
def intRepr (z : ℤ) : List Char :=
  if z < 0 then '-' :: natRepr z.natAbs else natRepr z.toNat

/-- Exact-rational parse of an unsigned decimal literal (digits with an
optional fractional part), the fragment of Python `float` grammar that the
fixed-width fields use. -/
def parseUnsignedQ (s : List Char) : Option ℚ :=
  match s.dropWhile isDigitC with
  | [] =>
    if s.takeWhile isDigitC = [] then none
    else some ((digitsVal (s.takeWhile isDigitC) : ℚ))
  | c :: fp =>
    if c = '.' ∧ fp.all isDigitC ∧ ¬(s.takeWhile isDigitC = [] ∧ fp = []) then
      some ((digitsVal (s.takeWhile isDigitC) : ℚ) + (digitsVal fp : ℚ) / 10 ^ fp.length)
    else none

/-- Exact-rational model of Python `float(...)` on already-stripped input. -/
def parseFloatQ (s : List Char) : Option ℚ :=
  match s with
  | [] => none
  | c :: r =>
    if c = '-' then (parseUnsignedQ r).map (fun q => -q)
    else if c = '+' then parseUnsignedQ r
    else parseUnsignedQ (c :: r)

/-- Model of Python `int(...)` on a string: strip, optional sign, digits. -/
def parsePyInt (s : List Char) : Option ℤ :=
  match stripL s with
  | [] => none
  | c :: r =>
    if c = '-' then
      if r ≠ [] ∧ r.all isDigitC then some (-(digitsVal r : ℤ)) else none
    else if c = '+' then
      if r ≠ [] ∧ r.all isDigitC then some ((digitsVal r : ℤ)) else none
    else
      if (c :: r).all isDigitC then some ((digitsVal (c :: r) : ℤ)) else none

/-- Python slice `l[a:b]` (for `a ≤ b`). -/
def pySlice (a b : ℕ) (l : List Char) : List Char :=
  (l.drop a).take (b - a)

/-- The `-9999` missing-value sentinel of the NOAA files. -/
def sentinel : List Char := ['-', '9', '9', '9', '9']

/-- Monthly field `i` (0-based) of a processed line: `line[8+5*i : 13+5*i]`. -/
def monthField (l : List Char) (i : ℕ) : List Char :=
  pySlice (8 + 5 * i) (8 + 5 * i + 5) l

/-- Decode one 5-character monthly field, as the body of the loop
`for i in range(8, 68, 5)` in `process_climate_file` does: trim, map the
sentinel and the empty string to null, otherwise parse and divide by 100. -/
def decodeField (f : List Char) : Option ℚ :=
  if stripL f ≠ [] ∧ stripL f ≠ sentinel then
    match parseFloatQ (stripL f) with
    | some v => some (v / 100)
    | none => none
  else none

/-- Outcome of the per-line processing inside `process_climate_file`:
the line is either skipped (shorter than 68 characters after stripping),
decoded into `(division_code, year, twelve monthly values)`, or raises an
exception that escapes to the per-file handler (the `int(line[4:8])` parse). -/
inductive LineResult where
  | skipped : LineResult
  | records : List Char → ℤ → List (Option ℚ) → LineResult
  | error : LineResult
  deriving DecidableEq

/-- Per-line body of `process_climate_file`. -/
def processLine (raw : List Char) : LineResult :=
  if (stripL raw).length < 68 then LineResult.skipped
  else
    match parsePyInt (pySlice 4 8 (stripL raw)) with
    | none => LineResult.error
    | some year =>
      LineResult.records (stripL (pySlice 0 4 (stripL raw))) year
        ((List.range 12).map (fun i => decodeField (monthField (stripL raw) i)))

/-- One output record of the climate-division decoder. -/
structure ClimRec where
  division_code : List Char
  year : ℤ
  month : ℕ
  value : Option ℚ
  deriving DecidableEq

/-- Records contributed by one decoded line (`enumerate(monthly_values, 1)`). -/
def lineRecords (d : List Char) (y : ℤ) (vals : List (Option ℚ)) : List ClimRec :=
  vals.enum.map (fun p => ClimRec.mk d y (p.1 + 1) p.2)

/-- Whole-file loop of `process_climate_file`: `none` models an exception
reaching the per-file `except` handler (the function then returns `None`). -/
def processLines : List (List Char) → Option (List ClimRec)
  | [] => some []
  | l :: ls =>
    match processLine l with
    | LineResult.skipped => processLines ls
    | LineResult.error => none
    | LineResult.records d y vals =>
      (processLines ls).map (fun rest => lineRecords d y vals ++ rest)

/-- `process_climate_file`: the argument is `none` when opening/reading the
file raises (also caught by the per-file handler). -/
def process_climate_file (contents : Option (List (List Char))) :
    Option (List ClimRec) :=
  match contents with
  | none => none
  | some lines => processLines lines

/-- The `processed_dfs` list built in `main`: per-file results, dropping the
files whose processing returned `None`. -/
def collectTables (files : List (Option (List (List Char)))) :
    List (List ClimRec) :=
  files.filterMap process_climate_file

/-! ### Generic facts about stripping and digit strings -/

theorem dropWhile_eq_self_of_head (p : Char → Bool) (l : List Char)
    (h : ∀ a, l.head? = some a → p a = false) : l.dropWhile p = l := by
  cases l with
  | nil => rfl
  | cons a t =>
    have ha : p a = false := h a rfl
    simp [List.dropWhile_cons, ha]

theorem head_dropWhile_false (p : Char → Bool) (l : List Char) :
    ∀ a, (l.dropWhile p).head? = some a → p a = false := by
  induction l with
  | nil => intro a h; simp at h
  | cons b t ih =>
    intro a h
    by_cases hb : p b
    · rw [List.dropWhile_cons_of_pos hb] at h
      exact ih a h
    · rw [List.dropWhile_cons_of_neg hb] at h
      simp only [List.head?_cons, Option.some.injEq] at h
      rw [← h]
      exact Bool.eq_false_iff.mpr hb

theorem dropWhile_idem (p : Char → Bool) (l : List Char) :
    (l.dropWhile p).dropWhile p = l.dropWhile p :=
  dropWhile_eq_self_of_head p _ (head_dropWhile_false p l)

theorem dropWhile_eq_self_of_all (p : Char → Bool) (l : List Char)
    (h : ∀ a ∈ l, p a = false) : l.dropWhile p = l := by
  cases l with
  | nil => rfl
  | cons a t =>
    have ha : p a = false := h a (List.mem_cons_self a t)
    simp [List.dropWhile_cons, ha]

theorem length_dropWhile_le_self (p : Char → Bool) (l : List Char) :
    (l.dropWhile p).length ≤ l.length := by
  induction l with
  | nil => simp
  | cons a t ih =>
    by_cases h : p a
    · rw [List.dropWhile_cons_of_pos h]
      exact le_trans ih (by simp)
    · rw [List.dropWhile_cons_of_neg h]

theorem dropWhile_replicate_append (p : Char → Bool) (c : Char) (hc : p c = true)
    (k : ℕ) (s : List Char) :
    (List.replicate k c ++ s).dropWhile p = s.dropWhile p := by
  induction k with
  | zero => simp
  | succ n ih => simp [List.replicate_succ, List.dropWhile_cons, hc, ih]

theorem rstripL_append (l : List Char) : ∃ t, rstripL l ++ t = l := by
  have h : l.reverse.dropWhile isWS <:+ l.reverse := List.dropWhile_suffix isWS
  rcases h with ⟨pre, hpre⟩
  refine ⟨pre.reverse, ?_⟩
  have := congrArg List.reverse hpre
  simpa [rstripL, List.reverse_append] using this

theorem rstripL_eq_self_of_all (l : List Char) (h : ∀ a ∈ l, isWS a = false) :
    rstripL l = l := by
  unfold rstripL
  rw [dropWhile_eq_self_of_all isWS l.reverse (fun a ha => h a (List.mem_reverse.mp ha))]
  exact List.reverse_reverse l

theorem stripL_eq_self_of_all (l : List Char) (h : ∀ a ∈ l, isWS a = false) :
    stripL l = l := by
  unfold stripL
  rw [dropWhile_eq_self_of_all isWS l h, rstripL_eq_self_of_all l h]

theorem stripL_idem (l : List Char) : stripL (stripL l) = stripL l := by
  have hyhead : ∀ a, (l.dropWhile isWS).head? = some a → isWS a = false :=
    head_dropWhile_false isWS l
  have h1 : (rstripL (l.dropWhile isWS)).dropWhile isWS = rstripL (l.dropWhile isWS) := by
    apply dropWhile_eq_self_of_head
    intro a ha
    rcases rstripL_append (l.dropWhile isWS) with ⟨t, ht⟩
    rcases hr : rstripL (l.dropWhile isWS) with _ | ⟨b, bs⟩
    · rw [hr] at ha; exact absurd ha (by simp)
    · rw [hr] at ha
      simp only [List.head?_cons, Option.some.injEq] at ha
      apply hyhead
      rw [← ht, hr]
      simp [ha]
  have h2 : rstripL (rstripL (l.dropWhile isWS)) = rstripL (l.dropWhile isWS) := by
    unfold rstripL
    rw [List.reverse_reverse, dropWhile_idem]
  show rstripL ((rstripL (l.dropWhile isWS)).dropWhile isWS) = rstripL (l.dropWhile isWS)
  rw [h1, h2]

theorem stripL_length_le (l : List Char) : (stripL l).length ≤ l.length := by
  have h1 : (l.dropWhile isWS).length ≤ l.length := length_dropWhile_le_self isWS l
  have h2 : (rstripL (l.dropWhile isWS)).length ≤ (l.dropWhile isWS).length := by
    unfold rstripL
    rw [List.length_reverse]
    calc ((l.dropWhile isWS).reverse.dropWhile isWS).length
        ≤ (l.dropWhile isWS).reverse.length := length_dropWhile_le_self _ _
      _ = (l.dropWhile isWS).length := List.length_reverse _
  exact le_trans h2 h1

theorem natToDigitsAux_zero (f : ℕ) : natToDigitsAux f 0 = [] := by
  cases f <;> simp [natToDigitsAux]

theorem digitsVal_append_digit (xs : List Char) (c : Char) :
    digitsVal (xs ++ [c]) = 10 * digitsVal xs + digitVal c := by
  simp [digitsVal, List.foldl_append]

theorem digitVal_digitChar (d : ℕ) (h : d < 10) : digitVal (digitChar d) = d := by
  interval_cases d <;> decide

theorem isDigitC_digitChar (d : ℕ) (h : d < 10) : isDigitC (digitChar d) = true := by
  interval_cases d <;> decide

theorem natToDigitsAux_spec : ∀ f n, 0 < n → n ≤ f →
    digitsVal (natToDigitsAux f n) = n ∧ natToDigitsAux f n ≠ [] ∧
      ∀ c ∈ natToDigitsAux f n, isDigitC c = true := by
  intro f
  induction f with
  | zero => intro n h0 hle; omega
  | succ f ih =>
    intro n h0 hle
    have hn : ¬n = 0 := by omega
    simp only [natToDigitsAux, if_neg hn]
    have hm : n % 10 < 10 := Nat.mod_lt n (by norm_num)
    by_cases hq : n / 10 = 0
    · have hlt : n < 10 := by omega
      rw [hq, natToDigitsAux_zero]
      refine ⟨?_, by simp, ?_⟩
      · have : digitsVal ([] ++ [digitChar (n % 10)]) = 10 * digitsVal [] + digitVal (digitChar (n % 10)) :=
          digitsVal_append_digit [] (digitChar (n % 10))
        rw [this, digitVal_digitChar (n % 10) hm]
        have : digitsVal [] = 0 := by decide
        rw [this]
        omega
      · intro c hc
        simp only [List.nil_append, List.mem_singleton] at hc
        rw [hc]
        exact isDigitC_digitChar (n % 10) hm
    · have hq10 : n / 10 ≤ f := by
        have := Nat.div_lt_self h0 (by norm_num : 1 < 10)
        omega
      obtain ⟨hval, hne, hdig⟩ := ih (n / 10) (Nat.pos_of_ne_zero hq) hq10
      refine ⟨?_, by simp, ?_⟩
      · rw [digitsVal_append_digit, hval, digitVal_digitChar (n % 10) hm]
        omega
      · intro c hc
        rcases List.mem_append.mp hc with hc | hc
        · exact hdig c hc
        · rw [List.mem_singleton.mp hc]
          exact isDigitC_digitChar (n % 10) hm

theorem natRepr_spec (n : ℕ) :
    digitsVal (natRepr n) = n ∧ natRepr n ≠ [] ∧
      ∀ c ∈ natRepr n, isDigitC c = true := by
  by_cases h : n = 0
  · subst h
    exact ⟨by decide, by decide, by decide⟩
  · simp only [natRepr, if_neg h]
    exact natToDigitsAux_spec n n (Nat.pos_of_ne_zero h) le_rfl

theorem isWS_eq_false_of_digit (c : Char) (h : isDigitC c = true) : isWS c = false := by
  refine Bool.eq_false_iff.mpr ?_
  intro hw
  unfold isWS at hw
  simp only [Bool.or_eq_true, beq_iff_eq] at hw
  rcases hw with ((((hw | hw) | hw) | hw) | hw) | hw <;>
    (subst hw; exact absurd h (by decide))

theorem intRepr_ne_nil (z : ℤ) : intRepr z ≠ [] := by
  unfold intRepr
  split
  · simp
  · exact (natRepr_spec z.toNat).2.1

theorem intRepr_no_ws (z : ℤ) : ∀ c ∈ intRepr z, isWS c = false := by
  unfold intRepr
  split
  · intro c hc
    rcases List.mem_cons.mp hc with hc | hc
    · rw [hc]; decide
    · exact isWS_eq_false_of_digit c ((natRepr_spec z.natAbs).2.2 c hc)
  · intro c hc
    exact isWS_eq_false_of_digit c ((natRepr_spec z.toNat).2.2 c hc)

/-- Right-justify a string in a field of width `w` (the canonical fixed-width
rendering of a value). -/
def leftPad (w : ℕ) (c : Char) (s : List Char) : List Char :=
  List.replicate (w - s.length) c ++ s

theorem stripL_leftPad (s : List Char) (hns : ∀ a ∈ s, isWS a = false) (w : ℕ) :
    stripL (leftPad w ' ' s) = s := by
  unfold stripL leftPad
  rw [dropWhile_replicate_append isWS ' ' (by decide) _ s,
    dropWhile_eq_self_of_all isWS s hns, rstripL_eq_self_of_all s hns]

theorem takeWhile_eq_self_of_all (p : Char → Bool) (l : List Char)
    (h : ∀ a ∈ l, p a = true) : l.takeWhile p = l := by
  induction l with
  | nil => rfl
  | cons a t ih =>
    rw [List.takeWhile_cons_of_pos (h a (List.mem_cons_self a t))]
    rw [ih (fun b hb => h b (List.mem_cons_of_mem a hb))]

theorem dropWhile_eq_nil_of_all (p : Char → Bool) (l : List Char)
    (h : ∀ a ∈ l, p a = true) : l.dropWhile p = [] := by
  induction l with
  | nil => rfl
  | cons a t ih =>
    rw [List.dropWhile_cons_of_pos (h a (List.mem_cons_self a t))]
    exact ih (fun b hb => h b (List.mem_cons_of_mem a hb))

theorem parseUnsignedQ_digits (s : List Char) (hne : s ≠ [])
    (h : ∀ c ∈ s, isDigitC c = true) :
    parseUnsignedQ s = some ((digitsVal s : ℚ)) := by
  unfold parseUnsignedQ
  rw [dropWhile_eq_nil_of_all isDigitC s h, takeWhile_eq_self_of_all isDigitC s h]
  simp [hne]

theorem parseFloatQ_natRepr (n : ℕ) : parseFloatQ (natRepr n) = some ((n : ℚ)) := by
  obtain ⟨hval, hne, hdig⟩ := natRepr_spec n
  rcases hr : natRepr n with _ | ⟨c, r⟩
  · exact absurd hr hne
  · have hc : isDigitC c = true := hdig c (by rw [hr]; exact List.mem_cons_self c r)
    have hcm : ¬c = '-' := by rintro rfl; exact absurd hc (by decide)
    have hcp : ¬c = '+' := by rintro rfl; exact absurd hc (by decide)
    have hdig2 : ∀ x ∈ c :: r, isDigitC x = true := by rw [← hr]; exact hdig
    have hval2 : digitsVal (c :: r) = n := by rw [← hr]; exact hval
    simp only [parseFloatQ, if_neg hcm, if_neg hcp]
    rw [parseUnsignedQ_digits (c :: r) (by simp) hdig2, hval2]

theorem parseFloatQ_intRepr (z : ℤ) : parseFloatQ (intRepr z) = some ((z : ℚ)) := by
  unfold intRepr
  split
  case isTrue h =>
    have hstep : parseFloatQ ('-' :: natRepr z.natAbs) =
        (parseUnsignedQ (natRepr z.natAbs)).map (fun q => -q) := by
      simp [parseFloatQ]
    rw [hstep]
    have hpu : parseUnsignedQ (natRepr z.natAbs) = some ((z.natAbs : ℚ)) := by
      obtain ⟨hval, hne, hdig⟩ := natRepr_spec z.natAbs
      rw [parseUnsignedQ_digits (natRepr z.natAbs) hne hdig, hval]
    rw [hpu]
    show some (-((z.natAbs : ℚ))) = some ((z : ℚ))
    congr 1
    have hq : ((z.natAbs : ℚ)) = -((z : ℚ)) := by
      rw [Int.cast_natAbs]
      have habs : |z| = -z := abs_of_neg h
      rw [habs]
      push_cast
      ring
    rw [hq]
    ring
  case isFalse h =>
    rw [parseFloatQ_natRepr z.toNat]
    congr 1
    have ht : ((z.toNat : ℤ)) = z := Int.toNat_of_nonneg (le_of_not_lt h)
    exact_mod_cast ht

/-- Re-encode a decoded monthly value under the stated scale: multiply by 100
and render right-justified in a width-5 field; a null becomes the `-9999`
sentinel. -/
def encodeField (v : Option ℚ) : List Char :=
  match v with
  | none => sentinel
  | some q => leftPad 5 ' ' (intRepr ((100 : ℚ) * q).num)

/-- A fixed-width monthly field is canonically formed when its trimmed content
is a decimal integer right-justified in the 5-character field. -/
def isCanonicalField (f : List Char) : Bool :=
  match parseFloatQ (stripL f) with
  | some q => q.den == 1 && decide (f = leftPad 5 ' ' (intRepr q.num))
  | none => false

theorem encode_decode_of_canonical (f : List Char) (h : isCanonicalField f = true) :
    encodeField (decodeField f) = f := by
  rcases hp : parseFloatQ (stripL f) with _ | q
  · unfold isCanonicalField at h
    rw [hp] at h
    exact absurd h (by simp)
  · unfold isCanonicalField at h
    rw [hp] at h
    simp only [Bool.and_eq_true, beq_iff_eq, decide_eq_true_eq] at h
    obtain ⟨hden, hform⟩ := h
    have hqint : ((q.num : ℚ)) = q := by
      rw [← Rat.num_div_den q, hden]
      norm_num
    have hstrip : stripL f = intRepr q.num := by
      rw [hform]
      exact stripL_leftPad (intRepr q.num) (intRepr_no_ws q.num) 5
    by_cases hsen : stripL f = sentinel
    · have hd : decodeField f = none := by
        unfold decodeField
        rw [if_neg (by simp [hsen])]
      rw [hd]
      show sentinel = f
      have hisen : intRepr q.num = sentinel := by rw [← hstrip, hsen]
      rw [hform, hisen]
      decide
    · have hne : stripL f ≠ [] := by rw [hstrip]; exact intRepr_ne_nil q.num
      have hd : decodeField f = some (q / 100) := by
        unfold decodeField
        rw [if_pos ⟨hne, hsen⟩, hp]
      rw [hd]
      show leftPad 5 ' ' (intRepr ((100 : ℚ) * (q / 100)).num) = f
      have h100 : (100 : ℚ) * (q / 100) = q := by
        rw [mul_comm]
        exact div_mul_cancel₀ q (by norm_num)
      rw [h100, hform]

/-- A 68+ character line is well formed when it carries no surrounding
whitespace, its year field parses, and each of its twelve monthly fields is
canonically formed. -/
def wellFormedLine (l : List Char) : Bool :=
  decide (stripL l = l) && decide (68 ≤ l.length) &&
    (parsePyInt (pySlice 4 8 l)).isSome &&
    (List.range 12).all (fun i => isCanonicalField (monthField l i))

/-- C1: for every well-formed input line of at least 68 characters, decoding
with `process_climate_file` and re-encoding the decoded values under the
stated scale (×100, sentinel restoration, width-5 right-justification)
recovers the original fixed-width monthly field values of the line. -/
theorem c1_decode_encode_roundtrip (l : List Char) (h : wellFormedLine l = true) :
    ∃ d y vals, processLine l = LineResult.records d y vals ∧
      vals.map encodeField = (List.range 12).map (monthField l) := by
  unfold wellFormedLine at h
  simp only [Bool.and_eq_true, decide_eq_true_eq, List.all_eq_true] at h
  obtain ⟨⟨⟨hstr, hlen⟩, hsome⟩, hfields⟩ := h
  rcases Option.isSome_iff_exists.mp hsome with ⟨y, hy⟩
  refine ⟨stripL (pySlice 0 4 l), y,
    (List.range 12).map (fun i => decodeField (monthField l i)), ?_, ?_⟩
  · unfold processLine
    rw [hstr, if_neg (by omega), hy]
  · rw [List.map_map]
    apply List.map_congr_left
    intro i hi
    exact encode_decode_of_canonical _ (hfields i hi)

def c1line : List Char :=
  ['0', '4', '0', '1', '2', '0', '2', '0'] ++
  [' ', ' ', '1', '2', '3'] ++ ['-', '9', '9', '9', '9'] ++
  [' ', ' ', ' ', '-', '5'] ++ [' ', ' ', ' ', ' ', '0'] ++
  [' ', '8', '8', '0', '0'] ++ [' ', ' ', ' ', '7', '1'] ++
  [' ', ' ', ' ', ' ', '2'] ++ [' ', ' ', ' ', ' ', '3'] ++
  [' ', ' ', ' ', ' ', '4'] ++ [' ', ' ', ' ', ' ', '5'] ++
  [' ', ' ', ' ', ' ', '6'] ++ [' ', '1', '0', '0', '7']

theorem c1_decode_encode_roundtrip_witness :
    wellFormedLine c1line = true ∧
      ∃ d y vals, processLine c1line = LineResult.records d y vals ∧
        vals.map encodeField = (List.range 12).map (monthField c1line) :=
  ⟨rfl, c1_decode_encode_roundtrip c1line rfl⟩

/-- C2: every monthly field of a processed line is trimmed before decoding; a
trimmed field equal to `-9999` or empty decodes to null (never to `0` or any
other value), and every other trimmed field whose content parses as the
number `v` decodes to `v / 100`. -/
theorem c2_field_decoding (l : List Char) (d : List Char) (y : ℤ)
    (vals : List (Option ℚ))
    (h : processLine l = LineResult.records d y vals) :
    vals = (List.range 12).map (fun i => decodeField (monthField (stripL l) i)) ∧
    (∀ f, stripL f = [] ∨ stripL f = sentinel → decodeField f = none) ∧
    (∀ f v, stripL f ≠ [] → stripL f ≠ sentinel → parseFloatQ (stripL f) = some v →
      decodeField f = some (v / 100)) := by
  refine ⟨?_, ?_, ?_⟩
  · unfold processLine at h
    by_cases hlt : (stripL l).length < 68
    · rw [if_pos hlt] at h
      exact absurd h (by simp)
    · rw [if_neg hlt] at h
      rcases hp : parsePyInt (pySlice 4 8 (stripL l)) with _ | yy
      · rw [hp] at h
        exact absurd h (by simp)
      · rw [hp] at h
        simp only [LineResult.records.injEq] at h
        exact h.2.2.symm
  · intro f hf
    unfold decodeField
    rcases hf with hf | hf <;> rw [if_neg (by simp [hf])]
  · intro f v h1 h2 h3
    unfold decodeField
    rw [if_pos ⟨h1, h2⟩, h3]

def c1vals : List (Option ℚ) :=
  (List.range 12).map (fun i => decodeField (monthField c1line i))

theorem c2_field_decoding_witness :
    c1vals = (List.range 12).map (fun i => decodeField (monthField (stripL c1line) i)) ∧
    (∀ f, stripL f = [] ∨ stripL f = sentinel → decodeField f = none) ∧
    (∀ f v, stripL f ≠ [] → stripL f ≠ sentinel → parseFloatQ (stripL f) = some v →
      decodeField f = some (v / 100)) :=
  c2_field_decoding c1line (stripL (pySlice 0 4 c1line)) 2020 c1vals rfl

/-- C7: an input line shorter than 68 characters produces zero output records
and does not raise: it is skipped, and processing continues with the next
line. -/
theorem c7_short_line_skipped (raw : List Char) (h : raw.length < 68) :
    processLine raw = LineResult.skipped ∧
      ∀ ls, processLines (raw :: ls) = processLines ls := by
  have hs : (stripL raw).length < 68 := lt_of_le_of_lt (stripL_length_le raw) h
  have h1 : processLine raw = LineResult.skipped := by
    unfold processLine
    rw [if_pos hs]
  exact ⟨h1, fun ls => by simp [processLines, h1]⟩

theorem c7_short_line_skipped_witness :
    processLine ['0', '4'] = LineResult.skipped ∧
      processLines [['0', '4']] = processLines [] :=
  ⟨(c7_short_line_skipped ['0', '4'] (by decide)).1,
   (c7_short_line_skipped ['0', '4'] (by decide)).2 []⟩

/-- C9: `process_climate_file` strips each line before the 68-character length
check (so a raw line whose stripped form is shorter than 68 characters is
skipped), and all field positions are taken relative to the stripped line:
processing a raw line and processing its stripped form agree. -/
theorem c9_strip_before_length_check (raw : List Char) :
    processLine raw = processLine (stripL raw) ∧
      ((stripL raw).length < 68 → processLine raw = LineResult.skipped) := by
  constructor
  · unfold processLine
    rw [stripL_idem]
  · intro h
    unfold processLine
    rw [if_pos h]

def c9line : List Char := List.replicate 80 ' '

theorem c9_strip_before_length_check_witness :
    processLine c9line = processLine (stripL c9line) ∧
      processLine c9line = LineResult.skipped :=
  ⟨(c9_strip_before_length_check c9line).1,
   (c9_strip_before_length_check c9line).2 (by decide)⟩

/-- C6: a read or decode exception raised while processing one input file
aborts that file only: it contributes no table, removing it leaves the
collected tables unchanged, and every sibling file that processed
successfully still has its decoded table collected (and hence merged). -/
theorem c6_file_error_isolated (files : List (Option (List (List Char))))
    (i : ℕ) (hi : i < files.length)
    (he : process_climate_file (files.get ⟨i, hi⟩) = none) :
    collectTables files = collectTables (files.eraseIdx i) ∧
      ∀ f ∈ files, ∀ t, process_climate_file f = some t → t ∈ collectTables files := by
  constructor
  · have hdrop : files.drop i = files.get ⟨i, hi⟩ :: files.drop (i + 1) := by
      rw [List.drop_eq_getElem_cons hi]
      simp
    have hsplit : files = files.take i ++ files.get ⟨i, hi⟩ :: files.drop (i + 1) := by
      conv_lhs => rw [← List.take_append_drop i files]
      rw [hdrop]
    have herase : files.eraseIdx i = files.take i ++ files.drop (i + 1) :=
      List.eraseIdx_eq_take_drop_succ files i
    rw [herase]
    conv_lhs => rw [hsplit]
    unfold collectTables
    rw [List.filterMap_append, List.filterMap_append]
    congr 1
    rw [List.filterMap_cons_none he]
  · intro f hf t ht
    exact List.mem_filterMap.mpr ⟨f, hf, by rw [ht]⟩

theorem c6_file_error_isolated_witness :
    collectTables [some [], none] = collectTables ([some [], none].eraseIdx 1) ∧
      ∀ f ∈ [some [], none], ∀ t, process_climate_file f = some t →
        t ∈ collectTables [some [], none] :=
  c6_file_error_isolated [some [], none] 1 (by decide) rfl

/-! ### Outer join of the per-variable decoded tables -/

/-- Composite key of the merge in `main`: `['division_code','year','month']`. -/
structure DKey where
  division_code : List Char
  year : ℤ
  month : ℕ
  deriving DecidableEq

/-- The key column of a keyed table. -/
def rowKeys {β : Type} (T : List (DKey × β)) : List DKey :=
  T.map Prod.fst

/-- Outer join on the composite key, as `pd.merge(..., how='outer')` computes
it (up to row order): every left row is paired with each matching right row,
or with a null fill when no right row matches; right rows whose key has no
left match are appended with a null fill on the left. -/
def outerMerge {β : Type} (L : List (DKey × β)) (R : List (DKey × Option ℚ))
    (nullB : β) : List (DKey × β × Option ℚ) :=
  (L.flatMap fun l =>
    match R.filter (fun r => decide (r.1 = l.1)) with
    | [] => [(l.1, l.2, none)]
    | m :: ms => (m :: ms).map (fun r => (l.1, l.2, r.2)))
  ++ (R.filter (fun r => decide (r.1 ∉ rowKeys L))).map (fun r => (r.1, nullB, r.2))

/-- The three-way merge of `main`:
`merge(merge(precip, tmax, on=key, how='outer'), tmin, on=key, how='outer')`. -/
def merge_outer3 (P X N : List (DKey × Option ℚ)) :
    List (DKey × (Option ℚ × Option ℚ) × Option ℚ) :=
  outerMerge (outerMerge P X none) N (none, none)

theorem filter_key_nil {β : Type} (R : List (DKey × β)) (k : DKey)
    (h : k ∉ rowKeys R) : R.filter (fun r => decide (r.1 = k)) = [] := by
  induction R with
  | nil => rfl
  | cons r R' ih =>
    rcases r with ⟨rk, rb⟩
    simp only [rowKeys, List.map_cons, List.mem_cons, not_or] at h
    rw [List.filter_cons_of_neg (by simp; exact fun he => h.1 he.symm)]
    exact ih (by simpa [rowKeys] using h.2)

theorem filter_key_single {β : Type} (R : List (DKey × β))
    (hR : (rowKeys R).Nodup) (k : DKey) :
    R.filter (fun r => decide (r.1 = k)) = [] ∨
      ∃ b, R.filter (fun r => decide (r.1 = k)) = [(k, b)] := by
  induction R with
  | nil => left; rfl
  | cons r R' ih =>
    rcases r with ⟨rk, rb⟩
    simp only [rowKeys, List.map_cons, List.nodup_cons] at hR
    obtain ⟨hnotin, hR'⟩ := hR
    by_cases hk : rk = k
    · right
      refine ⟨rb, ?_⟩
      rw [List.filter_cons_of_pos (by simp [hk])]
      rw [filter_key_nil R' k (by rw [← hk]; simpa [rowKeys] using hnotin)]
      rw [hk]
    · rw [List.filter_cons_of_neg (by simp [hk])]
      exact ih (by simpa [rowKeys] using hR')

theorem rowKeys_filter_fst {β : Type} (R : List (DKey × β)) (q : DKey → Bool) :
    rowKeys (R.filter (fun r => q r.1)) = (rowKeys R).filter q := by
  induction R with
  | nil => rfl
  | cons r R' ih =>
    have hk : rowKeys (r :: R') = r.1 :: rowKeys R' := rfl
    rw [hk, List.filter_cons, List.filter_cons]
    by_cases h : q r.1
    · rw [if_pos h, if_pos h]
      show r.1 :: rowKeys (List.filter (fun r => q r.1) R') = r.1 :: List.filter q (rowKeys R')
      rw [ih]
    · rw [if_neg h, if_neg h]
      exact ih

theorem rowKeys_outerMerge {β : Type} (L : List (DKey × β))
    (R : List (DKey × Option ℚ)) (nb : β) (hR : (rowKeys R).Nodup) :
    rowKeys (outerMerge L R nb) =
      rowKeys L ++ (rowKeys R).filter (fun k => decide (k ∉ rowKeys L)) := by
  unfold outerMerge
  rw [rowKeys, List.map_append]
  have hA : (L.flatMap fun l =>
      match R.filter (fun r => decide (r.1 = l.1)) with
      | [] => [(l.1, l.2, none)]
      | m :: ms => (m :: ms).map (fun r => (l.1, l.2, r.2))).map Prod.fst =
      rowKeys L := by
    induction L with
    | nil => rfl
    | cons l L' ihL =>
      rcases l with ⟨lk, lb⟩
      simp only [List.flatMap_cons, List.map_append, ihL]
      rcases filter_key_single R hR lk with hnil | ⟨b, hb⟩
      · rw [hnil]
        simp [rowKeys]
      · rw [hb]
        simp [rowKeys]
  have hB : ((R.filter (fun r => decide (r.1 ∉ rowKeys L))).map
      (fun r => (r.1, nb, r.2))).map Prod.fst =
      (rowKeys R).filter (fun k => decide (k ∉ rowKeys L)) := by
    rw [List.map_map]
    have : ((R.filter (fun r => decide (r.1 ∉ rowKeys L))).map
        (Prod.fst ∘ fun r => (r.1, nb, r.2))) =
        rowKeys (R.filter (fun r => decide (r.1 ∉ rowKeys L))) := rfl
    rw [this]
    exact rowKeys_filter_fst R (fun k => decide (k ∉ rowKeys L))
  rw [hA, hB]

theorem rowKeys_outerMerge_nodup {β : Type} (L : List (DKey × β))
    (R : List (DKey × Option ℚ)) (nb : β)
    (hL : (rowKeys L).Nodup) (hR : (rowKeys R).Nodup) :
    (rowKeys (outerMerge L R nb)).Nodup := by
  rw [rowKeys_outerMerge L R nb hR]
  refine List.Nodup.append hL (hR.filter _) ?_
  intro a haL haF
  have := (List.mem_filter.mp haF).2
  simp only [decide_eq_true_eq] at this
  exact this haL

theorem length_outerMerge {β : Type} (L : List (DKey × β))
    (R : List (DKey × Option ℚ)) (nb : β) (hR : (rowKeys R).Nodup) :
    (outerMerge L R nb).length =
      (rowKeys L).length +
        ((rowKeys R).filter (fun k => decide (k ∉ rowKeys L))).length := by
  have h := congrArg List.length (rowKeys_outerMerge L R nb hR)
  rw [rowKeys, List.length_map] at h
  rw [h, List.length_append, rowKeys, List.length_map]

theorem toFinset_rowKeys_outerMerge {β : Type} (L : List (DKey × β))
    (R : List (DKey × Option ℚ)) (nb : β) (hR : (rowKeys R).Nodup) :
    (rowKeys (outerMerge L R nb)).toFinset =
      (rowKeys L).toFinset ∪ (rowKeys R).toFinset := by
  rw [rowKeys_outerMerge L R nb hR, List.toFinset_append]
  have h : ((rowKeys R).filter (fun k => decide (k ∉ rowKeys L))).toFinset =
      (rowKeys R).toFinset \ (rowKeys L).toFinset := by
    ext a
    simp [List.mem_toFinset, List.mem_filter, Finset.mem_sdiff]
  rw [h, Finset.union_sdiff_self_eq_union]

theorem outerMerge_left_nullfill {β : Type} (L : List (DKey × β))
    (R : List (DKey × Option ℚ)) (nb : β) (k : DKey) (b : β)
    (hmem : (k, b) ∈ L) (hk : k ∉ rowKeys R) :
    (k, b, none) ∈ outerMerge L R nb := by
  unfold outerMerge
  apply List.mem_append_left
  apply List.mem_flatMap.mpr
  refine ⟨(k, b), hmem, ?_⟩
  rw [filter_key_nil R k hk]
  simp

/-- C3: with key-unique per-variable decoded tables, the two-step outer join
on `(division_code, year, month)` has exactly one row per distinct key in the
union of the three inputs, and a key present only in the first table still
appears, null-filled for the other two variables. -/
theorem c3_outer_join_union (P X N : List (DKey × Option ℚ))
    (hP : (rowKeys P).Nodup) (hX : (rowKeys X).Nodup) (hN : (rowKeys N).Nodup) :
    (merge_outer3 P X N).length =
      ((rowKeys P).toFinset ∪ (rowKeys X).toFinset ∪ (rowKeys N).toFinset).card ∧
    ∀ k v, (k, v) ∈ P → k ∉ rowKeys X → k ∉ rowKeys N →
      (k, (v, none), none) ∈ merge_outer3 P X N := by
  constructor
  · have hM1 : (rowKeys (outerMerge P X none)).Nodup :=
      rowKeys_outerMerge_nodup P X none hP hX
    have hM2 : (rowKeys (merge_outer3 P X N)).Nodup :=
      rowKeys_outerMerge_nodup (outerMerge P X none) N (none, none) hM1 hN
    have hlen : (merge_outer3 P X N).length = (rowKeys (merge_outer3 P X N)).length := by
      rw [rowKeys, List.length_map]
    rw [hlen, ← List.toFinset_card_of_nodup hM2]
    unfold merge_outer3
    rw [toFinset_rowKeys_outerMerge (outerMerge P X none) N (none, none) hN,
      toFinset_rowKeys_outerMerge P X none hX]
  · intro k v hmem hkX hkN
    exact outerMerge_left_nullfill (outerMerge P X none) N (none, none) k (v, none)
      (outerMerge_left_nullfill P X none k v hmem hkX) hkN

def dk1 : DKey := ⟨['0', '4', '0', '1'], 2020, 1⟩

def dk2 : DKey := ⟨['0', '4', '0', '2'], 2021, 7⟩

def tblP : List (DKey × Option ℚ) := [(dk1, none), (dk2, none)]

def tblX : List (DKey × Option ℚ) := [(dk1, none)]

def tblN : List (DKey × Option ℚ) := []

theorem c3_outer_join_union_witness :
    (merge_outer3 tblP tblX tblN).length =
      ((rowKeys tblP).toFinset ∪ (rowKeys tblX).toFinset ∪
        (rowKeys tblN).toFinset).card ∧
    (dk2, ((none : Option ℚ), (none : Option ℚ)), (none : Option ℚ)) ∈
      merge_outer3 tblP tblX tblN :=
  ⟨(c3_outer_join_union tblP tblX tblN (by decide) (by decide) (by decide)).1,
   (c3_outer_join_union tblP tblX tblN (by decide) (by decide) (by decide)).2
     dk2 none (by decide) (by decide) (by decide)⟩

/-! ### Year-chunked weather fetch loop -/

/-- An HTTP response as `download_weather_data_yearly` inspects it: a status
code and the optional `'results'` field of the JSON body. -/
structure HttpResponse (α : Type) where
  status_code : ℕ
  results : Option (List α)

/-- The three requested datatypes, in loop order. -/
def datatypes : List (List Char) :=
  [['T', 'M', 'A', 'X'], ['T', 'M', 'I', 'N'], ['P', 'R', 'C', 'P']]

/-- Mutable state of `download_weather_data_yearly`, together with the
externally observable request log and the per-year snapshot files written. -/
structure WState (α : Type) where
  all_data : List (List α)
  total_records : ℕ
  requestLog : List (ℕ × List Char)
  snapshots : List (ℕ × List α)

/-- One iteration of the inner datatype loop: issue the request; on a 200
response with results append the rows; on a 200 response without results, a
non-200 status, or an exception, log and continue. -/
def dtStep {α : Type} (fetch : ℕ → List Char → Except Unit (HttpResponse α))
    (y : ℕ) (s : WState α) (dt : List Char) : WState α :=
  match fetch y dt with
  | Except.error _ => { s with requestLog := s.requestLog ++ [(y, dt)] }
  | Except.ok r =>
    if r.status_code = 200 then
      match r.results with
      | some rows =>
        { s with all_data := s.all_data ++ [rows],
                 total_records := s.total_records + rows.length,
                 requestLog := s.requestLog ++ [(y, dt)] }
      | none => { s with requestLog := s.requestLog ++ [(y, dt)] }
    else { s with requestLog := s.requestLog ++ [(y, dt)] }

/-- One iteration of the outer year loop: run the datatype loop, then (when
any data has accumulated) write the per-year snapshot containing everything
accumulated so far. -/
def yearStep {α : Type} (fetch : ℕ → List Char → Except Unit (HttpResponse α))
    (s : WState α) (y : ℕ) : WState α :=
  let s1 := datatypes.foldl (fun s dt => dtStep fetch y s dt) s
  if 0 < s1.all_data.length then
    { s1 with snapshots := s1.snapshots ++ [(y, s1.all_data.flatten)] }
  else s1

/-- `range(start_year, end_year + 1)`. -/
def yearsList (sy ey : ℕ) : List ℕ := List.range' sy (ey + 1 - sy)

/-- `download_weather_data_yearly`: the final state plus the combined file
(written only when some data was fetched). -/
def download_weather_data_yearly {α : Type}
    (fetch : ℕ → List Char → Except Unit (HttpResponse α)) (sy ey : ℕ) :
    WState α × Option (List α) :=
  ((yearsList sy ey).foldl (yearStep fetch) ⟨[], 0, [], []⟩,
   if 0 < ((yearsList sy ey).foldl (yearStep fetch) ⟨[], 0, [], []⟩).all_data.length then
     some ((yearsList sy ey).foldl (yearStep fetch) ⟨[], 0, [], []⟩).all_data.flatten
   else none)

/-- The rows of one `(year, datatype)` request when it succeeded with
results, and `none` otherwise. -/
def fetchOk {α : Type} (fetch : ℕ → List Char → Except Unit (HttpResponse α))
    (y : ℕ) (dt : List Char) : Option (List α) :=
  match fetch y dt with
  | Except.ok r => if r.status_code = 200 then r.results else none
  | Except.error _ => none

/-- All successfully fetched units over a list of years, in loop order. -/
def okUnits {α : Type} (fetch : ℕ → List Char → Except Unit (HttpResponse α))
    (ys : List ℕ) : List (List α) :=
  ys.flatMap (fun y => datatypes.filterMap (fetchOk fetch y))

/-- All requests issued over a list of years, in loop order. -/
def allRequests (ys : List ℕ) : List (ℕ × List Char) :=
  ys.flatMap (fun y => datatypes.map (fun dt => (y, dt)))

/-- Snapshot files written while folding over `ys`, starting from an
accumulator `init`. -/
def snapsFrom {α : Type} (fetch : ℕ → List Char → Except Unit (HttpResponse α))
    (init : List (List α)) : List ℕ → List (ℕ × List α)
  | [] => []
  | y :: ys =>
    (if 0 < (init ++ okUnits fetch [y]).length then
      [(y, (init ++ okUnits fetch [y]).flatten)]
    else []) ++ snapsFrom fetch (init ++ okUnits fetch [y]) ys

theorem dtFold_spec {α : Type}
    (fetch : ℕ → List Char → Except Unit (HttpResponse α)) (y : ℕ) :
    ∀ (dts : List (List Char)) (s : WState α),
      dts.foldl (fun s dt => dtStep fetch y s dt) s =
        ⟨s.all_data ++ dts.filterMap (fetchOk fetch y),
         s.total_records + ((dts.filterMap (fetchOk fetch y)).map List.length).sum,
         s.requestLog ++ dts.map (fun dt => (y, dt)),
         s.snapshots⟩ := by
  intro dts
  induction dts with
  | nil => intro s; simp
  | cons dt dts ih =>
    intro s
    rw [List.foldl_cons, ih]
    rcases hf : fetch y dt with e | r
    · have hok : fetchOk fetch y dt = none := by unfold fetchOk; rw [hf]
      simp [dtStep, hf, hok, List.filterMap_cons]
    · by_cases hs : r.status_code = 200
      · rcases hres : r.results with _ | rows
        · have hok : fetchOk fetch y dt = none := by
            simp [fetchOk, hf, hs, hres]
          simp [dtStep, hf, hs, hres, hok, List.filterMap_cons]
        · have hok : fetchOk fetch y dt = some rows := by
            simp [fetchOk, hf, hs, hres]
          simp [dtStep, hf, hs, hres, hok, List.filterMap_cons]
          omega
      · have hok : fetchOk fetch y dt = none := by
          simp [fetchOk, hf, hs]
        simp [dtStep, hf, hs, hok, List.filterMap_cons]

theorem yearFold_spec {α : Type}
    (fetch : ℕ → List Char → Except Unit (HttpResponse α)) :
    ∀ (ys : List ℕ) (s : WState α),
      ys.foldl (yearStep fetch) s =
        ⟨s.all_data ++ okUnits fetch ys,
         s.total_records + ((okUnits fetch ys).map List.length).sum,
         s.requestLog ++ allRequests ys,
         s.snapshots ++ snapsFrom fetch s.all_data ys⟩ := by
  intro ys
  induction ys with
  | nil => intro s; simp [okUnits, allRequests, snapsFrom]
  | cons y ys ih =>
    intro s
    rw [List.foldl_cons]
    have hy : yearStep fetch s y =
        ⟨s.all_data ++ okUnits fetch [y],
         s.total_records + ((okUnits fetch [y]).map List.length).sum,
         s.requestLog ++ allRequests [y],
         s.snapshots ++
           (if 0 < (s.all_data ++ okUnits fetch [y]).length then
             [(y, (s.all_data ++ okUnits fetch [y]).flatten)]
           else [])⟩ := by
      unfold yearStep
      rw [dtFold_spec fetch y datatypes s]
      have hu : okUnits fetch [y] = datatypes.filterMap (fetchOk fetch y) := by
        simp [okUnits]
      have hr : allRequests [y] = datatypes.map (fun dt => (y, dt)) := by
        simp [allRequests]
      rw [← hu, ← hr]
      by_cases hlen : 0 < (s.all_data ++ okUnits fetch [y]).length
      · rw [if_pos hlen, if_pos hlen]
      · rw [if_neg hlen, if_neg hlen]
        simp
    rw [hy, ih]
    have hcu : okUnits fetch (y :: ys) = okUnits fetch [y] ++ okUnits fetch ys := by
      simp [okUnits]
    have hcr : allRequests (y :: ys) = allRequests [y] ++ allRequests ys := by
      simp [allRequests]
    have hcs : snapsFrom fetch s.all_data (y :: ys) =
        (if 0 < (s.all_data ++ okUnits fetch [y]).length then
          [(y, (s.all_data ++ okUnits fetch [y]).flatten)]
        else []) ++ snapsFrom fetch (s.all_data ++ okUnits fetch [y]) ys := rfl
    rw [hcu, hcr, hcs]
    simp [List.append_assoc]
    omega

theorem snapsFrom_mem {α : Type}
    (fetch : ℕ → List Char → Except Unit (HttpResponse α)) :
    ∀ (ys1 : List ℕ) (y : ℕ) (ys2 : List ℕ) (init : List (List α)),
      0 < (init ++ okUnits fetch (ys1 ++ [y])).length →
      (y, (init ++ okUnits fetch (ys1 ++ [y])).flatten) ∈
        snapsFrom fetch init (ys1 ++ y :: ys2) := by
  intro ys1
  induction ys1 with
  | nil =>
    intro y ys2 init hpos
    simp only [List.nil_append] at hpos ⊢
    simp only [snapsFrom]
    rw [if_pos hpos]
    exact List.mem_append_left _ (List.mem_singleton.mpr rfl)
  | cons z zs ih =>
    intro y ys2 init hpos
    simp only [List.cons_append] at hpos ⊢
    have hsplit : okUnits fetch (z :: (zs ++ [y])) =
        okUnits fetch [z] ++ okUnits fetch (zs ++ [y]) := by
      simp [okUnits]
    rw [hsplit, ← List.append_assoc] at hpos ⊢
    simp only [snapsFrom]
    apply List.mem_append_right
    exact ih y ys2 (init ++ okUnits fetch [z]) hpos

theorem yearsList_split_at (sy ey y : ℕ) (h1 : sy ≤ y) (h2 : y ≤ ey) :
    yearsList sy ey = List.range' sy (y - sy) ++ y :: List.range' (y + 1) (ey - y) := by
  have e3 := List.range'_append_1 sy (y - sy) (ey - y + 1)
  have e4 : sy + (y - sy) = y := by omega
  rw [e4] at e3
  have e5 : List.range' y (ey - y + 1) = y :: List.range' (y + 1) (ey - y) := by
    rw [List.range'_succ]
  rw [e5] at e3
  have e6 : ey - y + 1 + (y - sy) = ey + 1 - sy := by omega
  rw [e6] at e3
  unfold yearsList
  exact e3.symm

theorem yearsList_upto (sy y : ℕ) (h1 : sy ≤ y) :
    yearsList sy y = List.range' sy (y - sy) ++ [y] := by
  unfold yearsList
  have e1 : y + 1 - sy = (y - sy) + 1 := by omega
  rw [e1, List.range'_1_concat]
  have e2 : sy + (y - sy) = y := by omega
  rw [e2]

/-- C4: in `download_weather_data_yearly`, every `(year, datatype)` request is
issued no matter how any earlier request fails — the request log equals the
full year × datatype iteration for every behaviour of the network — and the
combined output contains every row of every successfully fetched unit. -/
theorem c4_failure_isolation {α : Type}
    (fetch : ℕ → List Char → Except Unit (HttpResponse α)) (sy ey : ℕ) :
    (download_weather_data_yearly fetch sy ey).1.requestLog =
      allRequests (yearsList sy ey) ∧
    ∀ y dt r rows, y ∈ yearsList sy ey → dt ∈ datatypes →
      fetch y dt = Except.ok r → r.status_code = 200 → r.results = some rows →
      ∃ c, (download_weather_data_yearly fetch sy ey).2 = some c ∧
        ∀ x ∈ rows, x ∈ c := by
  have hrun := yearFold_spec fetch (yearsList sy ey) ⟨[], 0, [], []⟩
  constructor
  · unfold download_weather_data_yearly
    rw [hrun]
    simp
  · intro y dt r rows hy hdt hf hs hres
    have hmem : rows ∈ okUnits fetch (yearsList sy ey) := by
      unfold okUnits
      apply List.mem_flatMap.mpr
      refine ⟨y, hy, ?_⟩
      apply List.mem_filterMap.mpr
      refine ⟨dt, hdt, ?_⟩
      simp [fetchOk, hf, hs, hres]
    have hpos : 0 < (([] : List (List α)) ++ okUnits fetch (yearsList sy ey)).length := by
      rw [List.nil_append]
      exact List.length_pos.mpr (List.ne_nil_of_mem hmem)
    refine ⟨(okUnits fetch (yearsList sy ey)).flatten, ?_, ?_⟩
    · unfold download_weather_data_yearly
      rw [hrun]
      show (if 0 < (([] : List (List α)) ++ okUnits fetch (yearsList sy ey)).length then
          some ((([] : List (List α)) ++ okUnits fetch (yearsList sy ey)).flatten)
        else none) = _
      rw [if_pos hpos, List.nil_append]
    · intro x hx
      exact List.mem_flatten.mpr ⟨rows, hmem, hx⟩

/-- C5: after each year's datatype loop, the per-year snapshot written for
that year holds everything accumulated since the start of the run (all
successfully fetched units of that year and of all earlier years), and the
final combined file equals the full accumulation over all years. -/
theorem c5_snapshot_accumulation {α : Type}
    (fetch : ℕ → List Char → Except Unit (HttpResponse α)) (sy ey y : ℕ)
    (h1 : sy ≤ y) (h2 : y ≤ ey) :
    (0 < (okUnits fetch (yearsList sy y)).length →
      (y, (okUnits fetch (yearsList sy y)).flatten) ∈
        (download_weather_data_yearly fetch sy ey).1.snapshots) ∧
    (download_weather_data_yearly fetch sy ey).2 =
      (if 0 < (okUnits fetch (yearsList sy ey)).length then
        some (okUnits fetch (yearsList sy ey)).flatten
      else none) := by
  have hrun := yearFold_spec fetch (yearsList sy ey) ⟨[], 0, [], []⟩
  constructor
  · intro hpos
    have hsnap : (download_weather_data_yearly fetch sy ey).1.snapshots =
        snapsFrom fetch [] (yearsList sy ey) := by
      unfold download_weather_data_yearly
      rw [hrun]
      simp
    rw [hsnap, yearsList_split_at sy ey y h1 h2]
    have hup : okUnits fetch (List.range' sy (y - sy) ++ [y]) =
        okUnits fetch (yearsList sy y) := by
      rw [yearsList_upto sy y h1]
    have hmem := snapsFrom_mem fetch (List.range' sy (y - sy)) y
      (List.range' (y + 1) (ey - y)) []
    rw [List.nil_append, hup] at hmem
    exact hmem hpos
  · unfold download_weather_data_yearly
    rw [hrun]
    show (if 0 < (([] : List (List α)) ++ okUnits fetch (yearsList sy ey)).length then
        some ((([] : List (List α)) ++ okUnits fetch (yearsList sy ey)).flatten)
      else none) = _
    rw [List.nil_append]

/-! ### Census population download -/

/-- One row of the Census API response, modelled positionally in the
documented column order of the request: the three population variables
followed by the state and county geography columns. -/
structure CensusRow where
  total : List Char
  male : List Char
  female : List Char
  state : List Char
  county : List Char
  deriving DecidableEq

/-- `pd.to_numeric(..., errors='coerce')` on a string cell: parse the decimal
literal exactly, or null on failure. -/
def to_numeric (s : List Char) : Option ℚ :=
  parseFloatQ (stripL s)

/-- The static California county FIPS table of `get_california_counties`. -/
def california_counties : List (List Char × List Char) := [
  (['A', 'l', 'a', 'm', 'e', 'd', 'a'], ['0', '0', '1']),
  (['A', 'l', 'p', 'i', 'n', 'e'], ['0', '0', '3']),
  (['A', 'm', 'a', 'd', 'o', 'r'], ['0', '0', '5']),
  (['B', 'u', 't', 't', 'e'], ['0', '0', '7']),
  (['C', 'a', 'l', 'a', 'v', 'e', 'r', 'a', 's'], ['0', '0', '9']),
  (['C', 'o', 'l', 'u', 's', 'a'], ['0', '1', '1']),
  (['C', 'o', 'n', 't', 'r', 'a', ' ', 'C', 'o', 's', 't', 'a'], ['0', '1', '3']),
  (['D', 'e', 'l', ' ', 'N', 'o', 'r', 't', 'e'], ['0', '1', '5']),
  (['E', 'l', ' ', 'D', 'o', 'r', 'a', 'd', 'o'], ['0', '1', '7']),
  (['F', 'r', 'e', 's', 'n', 'o'], ['0', '1', '9']),
  (['G', 'l', 'e', 'n', 'n'], ['0', '2', '1']),
  (['H', 'u', 'm', 'b', 'o', 'l', 'd', 't'], ['0', '2', '3']),
  (['I', 'm', 'p', 'e', 'r', 'i', 'a', 'l'], ['0', '2', '5']),
  (['I', 'n', 'y', 'o'], ['0', '2', '7']),
  (['K', 'e', 'r', 'n'], ['0', '2', '9']),
  (['K', 'i', 'n', 'g', 's'], ['0', '3', '1']),
  (['L', 'a', 'k', 'e'], ['0', '3', '3']),
  (['L', 'a', 's', 's', 'e', 'n'], ['0', '3', '5']),
  (['L', 'o', 's', ' ', 'A', 'n', 'g', 'e', 'l', 'e', 's'], ['0', '3', '7']),
  (['M', 'a', 'd', 'e', 'r', 'a'], ['0', '3', '9']),
  (['M', 'a', 'r', 'i', 'n'], ['0', '4', '1']),
  (['M', 'a', 'r', 'i', 'p', 'o', 's', 'a'], ['0', '4', '3']),
  (['M', 'e', 'n', 'd', 'o', 'c', 'i', 'n', 'o'], ['0', '4', '5']),
  (['M', 'e', 'r', 'c', 'e', 'd'], ['0', '4', '7']),
  (['M', 'o', 'd', 'o', 'c'], ['0', '4', '9']),
  (['M', 'o', 'n', 'o'], ['0', '5', '1']),
  (['M', 'o', 'n', 't', 'e', 'r', 'e', 'y'], ['0', '5', '3']),
  (['N', 'a', 'p', 'a'], ['0', '5', '5']),
  (['N', 'e', 'v', 'a', 'd', 'a'], ['0', '5', '7']),
  (['O', 'r', 'a', 'n', 'g', 'e'], ['0', '5', '9']),
  (['P', 'l', 'a', 'c', 'e', 'r'], ['0', '6', '1']),
  (['P', 'l', 'u', 'm', 'a', 's'], ['0', '6', '3']),
  (['R', 'i', 'v', 'e', 'r', 's', 'i', 'd', 'e'], ['0', '6', '5']),
  (['S', 'a', 'c', 'r', 'a', 'm', 'e', 'n', 't', 'o'], ['0', '6', '7']),
  (['S', 'a', 'n', ' ', 'B', 'e', 'n', 'i', 't', 'o'], ['0', '6', '9']),
  (['S', 'a', 'n', ' ', 'B', 'e', 'r', 'n', 'a', 'r', 'd', 'i', 'n', 'o'], ['0', '7', '1']),
  (['S', 'a', 'n', ' ', 'D', 'i', 'e', 'g', 'o'], ['0', '7', '3']),
  (['S', 'a', 'n', ' ', 'F', 'r', 'a', 'n', 'c', 'i', 's', 'c', 'o'], ['0', '7', '5']),
  (['S', 'a', 'n', ' ', 'J', 'o', 'a', 'q', 'u', 'i', 'n'], ['0', '7', '7']),
  (['S', 'a', 'n', ' ', 'L', 'u', 'i', 's', ' ', 'O', 'b', 'i', 's', 'p', 'o'], ['0', '7', '9']),
  (['S', 'a', 'n', ' ', 'M', 'a', 't', 'e', 'o'], ['0', '8', '1']),
  (['S', 'a', 'n', 't', 'a', ' ', 'B', 'a', 'r', 'b', 'a', 'r', 'a'], ['0', '8', '3']),
  (['S', 'a', 'n', 't', 'a', ' ', 'C', 'l', 'a', 'r', 'a'], ['0', '8', '5']),
  (['S', 'a', 'n', 't', 'a', ' ', 'C', 'r', 'u', 'z'], ['0', '8', '7']),
  (['S', 'h', 'a', 's', 't', 'a'], ['0', '8', '9']),
  (['S', 'i', 'e', 'r', 'r', 'a'], ['0', '9', '1']),
  (['S', 'i', 's', 'k', 'i', 'y', 'o', 'u'], ['0', '9', '3']),
  (['S', 'o', 'l', 'a', 'n', 'o'], ['0', '9', '5']),
  (['S', 'o', 'n', 'o', 'm', 'a'], ['0', '9', '7']),
  (['S', 't', 'a', 'n', 'i', 's', 'l', 'a', 'u', 's'], ['0', '9', '9']),
  (['S', 'u', 't', 't', 'e', 'r'], ['1', '0', '1']),
  (['T', 'e', 'h', 'a', 'm', 'a'], ['1', '0', '3']),
  (['T', 'r', 'i', 'n', 'i', 't', 'y'], ['1', '0', '5']),
  (['T', 'u', 'l', 'a', 'r', 'e'], ['1', '0', '7']),
  (['T', 'u', 'o', 'l', 'u', 'm', 'n', 'e'], ['1', '0', '9']),
  (['V', 'e', 'n', 't', 'u', 'r', 'a'], ['1', '1', '1']),
  (['Y', 'o', 'l', 'o'], ['1', '1', '3']),
  (['Y', 'u', 'b', 'a'], ['1', '1', '5'])]

/-- The inverted map `{v: k}` applied to the `county_fips` column. -/
def lookupFips (code : List Char) : Option (List Char) :=
  (california_counties.find? (fun p => decide (p.2 = code))).map Prod.fst

/-- One output record of `download_census_data` after renaming, year
labelling, numeric coercion and county-name mapping. -/
structure PopulationRecord where
  total_population : Option ℚ
  male_population : Option ℚ
  female_population : Option ℚ
  state_fips : List Char
  county_fips : List Char
  year : ℤ
  county_name : Option (List Char)
  deriving DecidableEq

/-- Per-row processing of `download_census_data`.  The two branches of the
source differ only in which provider column names they rename; with response
rows modelled positionally the per-row transformation is the same in both. -/
def processCensusRow (year : ℤ) (r : CensusRow) : PopulationRecord :=
  { total_population := to_numeric r.total,
    male_population := to_numeric r.male,
    female_population := to_numeric r.female,
    state_fips := r.state,
    county_fips := r.county,
    year := year,
    county_name := lookupFips r.county }

/-- The table built and written per year by `download_census_data`. -/
def download_census_data (year : ℤ) (rows : List CensusRow) : List PopulationRecord :=
  rows.map (processCensusRow year)

/-- The request constructed by `download_census_data` before any network
activity: endpoint, variable list, dataset tag and query parameters. -/
structure CensusRequest where
  base_url : String
  api_variables : String
  dataset : String
  geo_for : String
  geo_in : String
  key : String
  deriving DecidableEq

def censusRequest (year : ℤ) (apiKey : String) : CensusRequest :=
  if year ≥ 2010 then
    { base_url := "https://api.census.gov/data/2022/acs/acs5",
      api_variables := "B01003_001E,B01001_002E,B01001_026E",
      dataset := "acs/acs5",
      geo_for := "county:*",
      geo_in := "state:06",
      key := apiKey }
  else
    { base_url := "https://api.census.gov/data/" ++ String.mk (intRepr year) ++ "/dec/pl",
      api_variables := "P001001,P002002,P002026",
      dataset := String.mk (intRepr year) ++ "/dec/pl",
      geo_for := "county:*",
      geo_in := "state:06",
      key := apiKey }

/-- Erase the attached year label of a population record. -/
def forgetYear (r : PopulationRecord) : PopulationRecord :=
  { r with year := 0 }

/-- C8: a census row whose population field is non-numeric is coerced to null
rather than raising: the output keeps one record per input row, and the
record at the failing row's position carries a null population. -/
theorem c8_nonnumeric_population_null (year : ℤ) (rows : List CensusRow)
    (i : ℕ) (r : CensusRow) (hr : rows[i]? = some r)
    (hnn : to_numeric r.total = none) :
    (download_census_data year rows).length = rows.length ∧
    ∃ rec, (download_census_data year rows)[i]? = some rec ∧
      rec.total_population = none ∧ rec = processCensusRow year r := by
  refine ⟨by simp [download_census_data], ?_⟩
  refine ⟨processCensusRow year r, ?_, ?_, rfl⟩
  · unfold download_census_data
    rw [List.getElem?_map, hr]
    rfl
  · show to_numeric r.total = none
    exact hnn

def censusRow0 : CensusRow :=
  ⟨['a', 'b', 'c'], ['5'], ['6'], ['0', '6'], ['0', '0', '1']⟩

theorem c8_nonnumeric_population_null_witness :
    (download_census_data 2022 [censusRow0]).length = [censusRow0].length ∧
    ∃ rec, (download_census_data 2022 [censusRow0])[0]? = some rec ∧
      rec.total_population = none ∧ rec = processCensusRow 2022 censusRow0 :=
  c8_nonnumeric_population_null 2022 [censusRow0] 0 censusRow0 rfl rfl

/-- C10: for any two requested years at or above 2010, `download_census_data`
builds the identical Census API request (same 2022 ACS-5 endpoint, variables
and query parameters), and given equal provider responses its outputs differ
only in the attached year label. -/
theorem c10_year_only_labels (y1 y2 : ℤ) (h1 : 2010 ≤ y1) (h2 : 2010 ≤ y2)
    (apiKey : String) (rows : List CensusRow) :
    censusRequest y1 apiKey = censusRequest y2 apiKey ∧
    (download_census_data y1 rows).map forgetYear =
      (download_census_data y2 rows).map forgetYear := by
  constructor
  · unfold censusRequest
    rw [if_pos (by omega : y1 ≥ 2010), if_pos (by omega : y2 ≥ 2010)]
  · unfold download_census_data
    rw [List.map_map, List.map_map]
    apply List.map_congr_left
    intro r hr
    rfl

def emptyKey : String := ""

theorem c10_year_only_labels_witness :
    censusRequest 2015 emptyKey = censusRequest 2022 emptyKey ∧
    (download_census_data 2015 [censusRow0]).map forgetYear =
      (download_census_data 2022 [censusRow0]).map forgetYear :=
  c10_year_only_labels 2015 2022 (by decide) (by decide) emptyKey [censusRow0]

def tmaxDT : List Char := ['T', 'M', 'A', 'X']

def wfetch : ℕ → List Char → Except Unit (HttpResponse ℕ) := fun y dt =>
  if y = 2 ∧ dt = tmaxDT then Except.ok ⟨200, some [7]⟩ else Except.error ()

theorem c4_failure_isolation_witness :
    (download_weather_data_yearly wfetch 2 3).1.requestLog =
      allRequests (yearsList 2 3) ∧
    ∃ c, (download_weather_data_yearly wfetch 2 3).2 = some c ∧
      ∀ x ∈ [7], x ∈ c :=
  ⟨(c4_failure_isolation wfetch 2 3).1,
   (c4_failure_isolation wfetch 2 3).2 2 tmaxDT ⟨200, some [7]⟩ [7]
     (by decide) (by decide) rfl rfl rfl⟩

theorem c5_snapshot_accumulation_witness :
    (2, (okUnits wfetch (yearsList 2 2)).flatten) ∈
      (download_weather_data_yearly wfetch 2 3).1.snapshots ∧
    (download_weather_data_yearly wfetch 2 3).2 =
      (if 0 < (okUnits wfetch (yearsList 2 3)).length then
        some (okUnits wfetch (yearsList 2 3)).flatten
      else none) :=
  ⟨(c5_snapshot_accumulation wfetch 2 3 2 (by decide) (by decide)).1 (by decide),
   (c5_snapshot_accumulation wfetch 2 3 2 (by decide) (by decide)).2⟩
